import Mathlib

/-!
Verification development for the `llm_repo_agent` repository: a shallow
embedding of the agent orchestration runtime (action protocol, history,
controller, summary, driver loop) with theorems about its behaviour.

Python dynamic values are embedded as `JVal` (JSON-like values, with
`jnull` playing Python `None`); Python dicts become association lists
whose keys are unique in all program-generated values.  Python code that
can raise is embedded as `Except PyErr`-returning functions, where
`PyErr` distinguishes the exception classes the programs branch on.
-/

namespace LlmRepoAgent

/-- JSON-like dynamic value; `jnull` plays Python `None`. -/
inductive JVal where
  | jnull
  | jbool (b : Bool)
  | jnum (n : Int)
  | jstr (s : String)
  | jlist (xs : List JVal)
  | jobj (fields : List (String × JVal))

/-- Python exception classes the embedded code distinguishes. -/
inductive PyErr where
  | typeError (msg : String)
  | valueError (msg : String)
  | attributeError (msg : String)
deriving DecidableEq

/-- Python-dict field list. -/
abbrev Fields := List (String × JVal)

/-- Embeds `d.get(k)`: the first binding of `k`, or `None` when absent. -/
def pyGet (d : Fields) (k : String) : JVal :=
  match d.find? (fun p => p.1 == k) with
  | some p => p.2
  | none => JVal.jnull

/-- Embeds `d.get(k, default)`. -/
def pyGetD (d : Fields) (k : String) (v : JVal) : JVal :=
  match d.find? (fun p => p.1 == k) with
  | some p => p.2
  | none => v

/-- Embeds `k in d` for a dict. -/
def hasKey (d : Fields) (k : String) : Bool :=
  d.any (fun p => p.1 == k)

/-- Embeds `d.pop(k)`-style removal of a key (dict keys are unique). -/
def eraseKey (d : Fields) (k : String) : Fields :=
  d.filter (fun p => p.1 != k)

/-- Keys of a dict, in insertion order. -/
def dictKeys (d : Fields) : List String :=
  d.map Prod.fst

/-- Python truthiness of an embedded value. -/
def pyTruthy : JVal → Bool
  | .jnull => false
  | .jbool b => b
  | .jnum n => n != 0
  | .jstr s => s ≠ ""
  | .jlist xs => !xs.isEmpty
  | .jobj fs => !fs.isEmpty

/-- Embeds `x is None`. -/
def isNone : JVal → Bool
  | .jnull => true
  | _ => false

/-! ### tool_schema.py

`TOOL_DEFINITIONS` lists the four model-callable tools plus the
driver-only `run_tests`; the derived maps exclude driver-only tools. -/

/-- Model-callable tool names (`TOOL_NAMES` in `tool_schema.py`). -/
def TOOL_NAMES : List String := ["list_files", "read_file", "write_file", "grep"]

/-- Allowed argument names per model-callable tool (`TOOL_ARG_NAMES`). -/
def TOOL_ARG_NAMES (name : String) : Option (List String) :=
  if name = "list_files" then some ["rel_dir", "max_files"]
  else if name = "read_file" then some ["rel_path", "max_chars"]
  else if name = "write_file" then some ["rel_path", "content"]
  else if name = "grep" then some ["pattern", "rel_dir", "max_hits"]
  else none

/-- Required argument names per model-callable tool (`TOOL_REQUIRED_ARGS`);
every declared argument is required in `tool_schema.py`. -/
def TOOL_REQUIRED_ARGS : String → Option (List String) := TOOL_ARG_NAMES

/-! ### actions.py -/

/-- A validated change entry of a final action: exactly the keys
`path` and `description`, both strings. -/
structure Change where
  path : String
  description : String
deriving DecidableEq

/-- Typed action (`ToolCallAction` / `FinalAction` in `actions.py`). -/
inductive Action where
  | toolCall (name : String) (args : Fields) (thought : Option String)
  | final (summary : String) (changes : List Change) (thought : Option String)

/-- Embeds `ToolCallAction.to_dict` / `FinalAction.to_dict`. -/
def Action.to_dict : Action → JVal
  | .toolCall name args thought =>
      .jobj ([("type", .jstr "tool_call"), ("name", .jstr name), ("args", .jobj args)]
        ++ (match thought with | some s => [("thought", .jstr s)] | none => []))
  | .final summary changes thought =>
      .jobj ([("type", .jstr "final"), ("summary", .jstr summary),
        ("changes", .jlist (changes.map fun c =>
          .jobj [("path", .jstr c.path), ("description", .jstr c.description)]))]
        ++ (match thought with | some s => [("thought", .jstr s)] | none => []))

/-- Final thought-field validation shared by both branches of
`parse_action`: `None` means absent, a string is kept, anything else
is an `ActionParseError`. -/
def validateThought (t : JVal) (msg : String) : Except String (Option String) :=
  match t with
  | .jnull => .ok none
  | .jstr s => .ok (some s)
  | _ => .error msg

/-- Tool-call branch of `parse_action` after extracting the `name`,
`args` and `thought` values from the (possibly coerced) dict. -/
def parseToolCallFields (name args thought : JVal) : Except String Action :=
  match name with
  | .jstr n =>
    if n = "" then .error "tool_call requires non-empty string name"
    else
      match args with
      | .jobj a =>
        -- args_obj = dict(args); a riding thought is popped out of args
        let popped : JVal × Fields :=
          if isNone thought && hasKey a "thought"
          then (pyGet a "thought", eraseKey a "thought")
          else (thought, a)
        match validateThought popped.1 "tool_call thought must be a string if present" with
        | .error e => .error e
        | .ok th => .ok (.toolCall n popped.2 th)
      | _ => .error "tool_call requires args object"
  | _ => .error "tool_call requires non-empty string name"

/-- Validates one entry of a `final` action's `changes` list: a dict
whose key set is exactly the pair path/description with string values. -/
def parseChange (v : JVal) : Except String Change :=
  match v with
  | .jobj ch =>
    let ks := dictKeys ch
    if (ks.contains "path" && ks.contains "description"
        && ks.all (fun k => k == "path" || k == "description")) then
      match pyGet ch "path", pyGet ch "description" with
      | .jstr p, .jstr d => .ok ⟨p, d⟩
      | _, _ => .error "change path or description must be strings"
    else .error "each change must be a path/description dict"
  | _ => .error "each change must be a path/description dict"

/-- Validates every entry of a `changes` list in order. -/
def parseChanges : List JVal → Except String (List Change)
  | [] => .ok []
  | v :: rest =>
    match parseChange v with
    | .error e => .error e
    | .ok c =>
      match parseChanges rest with
      | .error e => .error e
      | .ok cs => .ok (c :: cs)

/-- Final branch of `parse_action`. -/
def parseFinalFields (summary changes thought : JVal) : Except String Action :=
  match summary with
  | .jstr s =>
    if s = "" then .error "final requires non-empty summary string"
    else
      match changes with
      | .jlist chs =>
        match parseChanges chs with
        | .error e => .error e
        | .ok cs =>
          match validateThought thought "final thought must be a string if present" with
          | .error e => .error e
          | .ok th => .ok (.final s cs th)
      | _ => .error "final requires changes array"
  | _ => .error "final requires non-empty summary string"

/-- Embeds `parse_action` from `actions.py`: coercion of a tool name in
`type` runs first, then validation of the `tool_call` / `final` shape. -/
def parse_action (obj : JVal) : Except String Action :=
  match obj with
  | .jobj d0 =>
    -- Coerce common mistake: a known tool name in `type` with no `name` key.
    let d : Fields :=
      if ((match pyGet d0 "type" with
          | .jstr s => TOOL_NAMES.contains s
          | _ => false) && ! hasKey d0 "name")
      then [("type", .jstr "tool_call"), ("name", pyGet d0 "type"),
            ("args", pyGetD d0 "args" (.jobj [])), ("thought", pyGet d0 "thought")]
      else d0
    match pyGet d "type" with
    | .jstr "tool_call" =>
        parseToolCallFields (pyGet d "name") (pyGet d "args") (pyGet d "thought")
    | .jstr "final" =>
        parseFinalFields (pyGet d "summary") (pyGetD d "changes" (.jlist [])) (pyGet d "thought")
    | _ => .error "Unknown action type"
  | _ => .error "Action must be a JSON object/dict"

/-- Drops leading whitespace characters of a character list. -/
def trimCharsLeft : List Char → List Char
  | [] => []
  | c :: rest => if c.isWhitespace then trimCharsLeft rest else c :: rest

/-- Embeds Python `s.strip()`: drop leading and trailing whitespace
(structurally recursive over the characters, so it evaluates inside the
kernel; the strings this program normalizes are ASCII). -/
def pyStrip (s : String) : String :=
  ⟨(trimCharsLeft (trimCharsLeft s.data).reverse).reverse⟩

/-- Embeds Python string slicing `s[:n]` (character-based, like Python). -/
def pyTake (s : String) (n : Nat) : String := ⟨s.data.take n⟩

/-! ### history.py -/

/-- Result of a tool collaborator call (`ToolResult` in `tools.py`). -/
structure ToolResult where
  ok : Bool
  output : String
  meta : Fields

/-- Normalized, length-capped view of a `ToolResult`. -/
structure Observation where
  ok : Bool
  output : String
  meta : Fields

/-- Embeds `Observation.from_tool_result` with its default 12000-char cap. -/
def Observation.from_tool_result (res : ToolResult) : Observation :=
  ⟨res.ok, pyTake res.output 12000, res.meta⟩

/-- A stored reflection (`ReflectionEvent` in `history.py`). -/
structure ReflectionEvent where
  notes : List String
  next_focus : Option String
  risks : List String

/-- Tagged union of History events (`HistoryEvent` subclasses). -/
inductive HistoryEvent where
  | toolCall (name : String) (args : Fields)
  | observation (tool : String) (obs : Observation)
  | llmAction (obj : JVal)
  | driverNote (note : String)
  | reflection (ev : ReflectionEvent)

/-- Python class name of an event, for faithful error messages. -/
def eventClassName : HistoryEvent → String
  | .toolCall _ _ => "ToolCallEvent"
  | .observation _ _ => "ObservationEvent"
  | .llmAction _ => "LLMActionEvent"
  | .driverNote _ => "DriverNoteEvent"
  | .reflection _ => "ReflectionEvent"

/-- Holds true exactly on `ReflectionEvent`s (`isinstance(e, ReflectionEvent)`). -/
def HistoryEvent.isReflection : HistoryEvent → Bool
  | .reflection _ => true
  | _ => false

/-- Ordered event log (`History` in `history.py`). -/
structure History where
  events : List HistoryEvent

def History.empty : History := ⟨[]⟩

def History.append_tool_call (h : History) (name : String) (args : Fields) : History :=
  ⟨h.events ++ [.toolCall name args]⟩

def History.append_observation (h : History) (tool : String) (obs : Observation) : History :=
  ⟨h.events ++ [.observation tool obs]⟩

def History.append_llm_action (h : History) (obj : JVal) : History :=
  ⟨h.events ++ [.llmAction obj]⟩

def History.append_driver_note (h : History) (note : String) : History :=
  ⟨h.events ++ [.driverNote note]⟩

/-- Embeds `n.strip().lower()`, the normal form used by reflection dedup. -/
def pyNorm (s : String) : String := ⟨(pyStrip s).data.map Char.toLower⟩

/-- Collects the case-insensitive trimmed strings of a window of
reflections (notes, `next_focus` when a string, risks) into a set,
embedded as a duplicate-free list. -/
def windowSeen (slice : List ReflectionEvent) : List String :=
  slice.foldl (fun seen ref =>
    let seen := ref.notes.foldl (fun s n => s.insert (pyNorm n)) seen
    let seen := match ref.next_focus with
      | some nf => seen.insert (pyNorm nf)
      | none => seen
    ref.risks.foldl (fun s r => s.insert (pyNorm r)) seen) []

/-- One dedup pass over a string list: keeps the items whose normal form
is non-empty and unseen, threading the seen set left to right. -/
def dedupPass (seen : List String) : List String → List String × List String
  | [] => ([], seen)
  | n :: rest =>
      let m := pyNorm n
      if m != "" && ! seen.contains m then
        let r := dedupPass (seen.insert m) rest
        (n :: r.1, r.2)
      else dedupPass seen rest

/-- Reflection events of a history, oldest first. -/
def History.reflections (h : History) : List ReflectionEvent :=
  h.events.filterMap (fun e => match e with | .reflection r => some r | _ => none)

/-- Seen set built from the last `dedup_window` stored reflections, or
from all of them when the window is not positive
(`recent_reflections[-dedup_window:] if dedup_window > 0 else recent_reflections`). -/
def reflectionSeenSet (h : History) (w : Int) : List String :=
  let recent := h.reflections
  windowSeen (if w > 0 then recent.drop (recent.length - w.toNat) else recent)

/-- Next-focus stage of the dedup: a truthy `next_focus` survives when
its normal form is non-empty and unseen. -/
def nextFocusPass (seen : List String) : Option String → Option String
  | some nf =>
      if nf ≠ "" then
        (if pyNorm nf != "" && ! seen.contains (pyNorm nf) then some nf else none)
      else none
  | none => none

/-- Indices of reflection events starting at offset `i`
(embeds `[i for i, e in enumerate(events) if isinstance(e, ReflectionEvent)]`). -/
def reflIndicesFrom : List HistoryEvent → Nat → List Nat
  | [], _ => []
  | e :: rest, i =>
      if e.isReflection then i :: reflIndicesFrom rest (i + 1)
      else reflIndicesFrom rest (i + 1)

/-- Embeds the cap eviction loop of `append_reflection`: pop the first
remaining reflection index, delete that event, shift later indices down
by one, repeat `overflow` times or until the index list is empty. -/
def capLoop : List HistoryEvent → List Nat → Nat → List HistoryEvent
  | evs, _, 0 => evs
  | evs, [], _ + 1 => evs
  | evs, idx :: rest, n + 1 =>
      capLoop (evs.eraseIdx idx) (rest.map fun i => if idx < i then i - 1 else i) n

/-- Cap stage of `append_reflection`: when `max_reflections` is truthy
and positive, evict the oldest reflection events down to the cap. -/
def capReflections (events : List HistoryEvent) (maxReflections : Option Int) : History :=
  match maxReflections with
  | some m =>
      if m > 0 then
        let idxs := reflIndicesFrom events 0
        ⟨capLoop events idxs ((idxs.length : Int) - m).toNat⟩
      else ⟨events⟩
  | none => ⟨events⟩

/-- Embeds `History.append_reflection(event, max_reflections, dedup_window)`
from `history.py`: window-based dedup of notes, risks and next_focus (in
that order, each accepted item feeding the seen set), no-op when nothing
survives, then FIFO eviction of the oldest reflections past the cap. -/
def History.append_reflection (h : History) (event : ReflectionEvent)
    (maxReflections : Option Int) (dedupWindow : Option Int) : History :=
  -- dedup_window defaults to max_reflections, then to 0
  let w : Int :=
    (match dedupWindow, maxReflections with
     | none, some m => some m
     | dw, _ => dw).getD 0
  let seen0 := reflectionSeenSet h w
  let notesPass := dedupPass seen0 event.notes
  let risksPass := dedupPass notesPass.2 event.risks
  let dedupNextFocus := nextFocusPass risksPass.2 event.next_focus
  if notesPass.1.isEmpty && dedupNextFocus.isNone && risksPass.1.isEmpty then h
  else
    capReflections
      (h.events ++ [.reflection
        ⟨if notesPass.1.isEmpty then event.notes else notesPass.1,
         dedupNextFocus, risksPass.1⟩])
      maxReflections

/-- Path contributed to `touched_files` by one event: a `write_file`
observation contributes `meta.rel_path`, falling back to `meta.path`
when `rel_path` is falsy, provided the value is a string; the
observation's `ok` flag is not consulted. -/
def writePathOf : HistoryEvent → Option String
  | .observation tool obs =>
      if tool == "write_file" then
        let rel := if pyTruthy (pyGet obs.meta "rel_path") then pyGet obs.meta "rel_path"
                   else pyGet obs.meta "path"
        match rel with
        | .jstr s => some s
        | _ => none
      else none
  | _ => none

/-- Accumulating loop of `History.touched_files` (seen set plus ordered
output list). -/
def touchedAux : List HistoryEvent → List String → List String
  | [], _ => []
  | e :: rest, seen =>
      match writePathOf e with
      | some rel =>
          if seen.contains rel then touchedAux rest seen
          else rel :: touchedAux rest (rel :: seen)
      | none => touchedAux rest seen

/-- Embeds `History.touched_files`. -/
def History.touched_files (h : History) : List String :=
  touchedAux h.events []

/-- Embeds `History.has_any_observation`. -/
def History.has_any_observation (h : History) : Bool :=
  h.events.any (fun e => match e with | .observation _ _ => true | _ => false)

/-- Distinct elements of a list in first-seen order; `length ∘ firstSeen`
is the cardinality of the Python set of the list. -/
def firstSeen : List String → List String
  | [] => []
  | x :: xs => x :: firstSeen (xs.filter (fun y => y ≠ x))
termination_by l => l.length
decreasing_by
  simp only [List.length_cons]
  exact Nat.lt_succ_of_le (List.length_filter_le _ _)

/-- Names of the tool-call events of a history, in order. -/
def toolCallNames (h : History) : List String :=
  h.events.filterMap (fun e => match e with | .toolCall n _ => some n | _ => none)

/-- Embeds `History.detect_loop(k)`: the last `k` tool-call names form a
singleton set.  Python's `l[-k:]` is the whole list when `k = 0`. -/
def History.detect_loop (h : History) (k : Nat) : Bool :=
  let tool_calls := toolCallNames h
  if tool_calls.length < k then false
  else
    let names := if k = 0 then tool_calls else tool_calls.drop (tool_calls.length - k)
    (firstSeen names).length == 1

/-- Number of reflection events stored in a history. -/
def countReflections (l : List HistoryEvent) : Nat :=
  (l.filter HistoryEvent.isReflection).length

/-! ### summary.py -/

structure TestResult where
  ok : Bool
  output : String

/-- Compact run-level summary (`RunSummary` in `summary.py`; the
bookkeeping-only `run_id` field is omitted). -/
structure RunSummary where
  notes : List String
  reflection_notes : List String
  reflection_next_focus : List String
  reflection_risks : List String
  files_touched : List String
  last_test : Option TestResult

/-- Embeds `summarize_history` from `summary.py`.  The source iterates
`history.events` calling `e.get("kind")`, but `History` stores
`HistoryEvent` dataclass instances, which have no `get` method: on any
history with at least one event the loop raises `AttributeError` at its
first iteration, so only the empty history produces a summary. -/
def summarize_history (h : History) : Except PyErr RunSummary :=
  match h.events with
  | [] => .ok ⟨[], [], [], [], h.touched_files, none⟩
  | e :: _ =>
      .error (.attributeError (eventClassName e ++ " object has no attribute get"))

/-! ### controller.py

The tool collaborator (`RepoTools` in `tools.py`, out of scope per the
spec) is embedded as an oracle: each tool maps its argument dict to a
`ToolResult` or to a raised exception; `run_tests` maps the invocation
index to its result. -/

structure RepoTools where
  list_files : Fields → Except PyErr ToolResult
  read_file : Fields → Except PyErr ToolResult
  write_file : Fields → Except PyErr ToolResult
  grep : Fields → Except PyErr ToolResult
  run_tests : Nat → ToolResult

/-- Embeds `ActionController._record_result`: normalize the result and
append the observation event (trace logging is external I/O, not
modeled). -/
def recordResult (h : History) (name : String) (res : ToolResult) : History × Observation :=
  let observation := Observation.from_tool_result res
  (h.append_observation name observation, observation)

/-- Message assembled by `ActionController._invalid_args_result`. -/
def invalidArgsMsg (missing extra : List String) : String :=
  let parts :=
    (if missing.isEmpty then [] else ["missing required args: " ++ String.intercalate ", " missing])
    ++ (if extra.isEmpty then [] else ["unexpected args: " ++ String.intercalate ", " extra])
  "Invalid tool args: " ++ String.intercalate "; " parts

/-- Required arguments absent from the call (`[k for k in required if k not in args]`). -/
def missingArgs (name : String) (args : Fields) : List String :=
  ((TOOL_REQUIRED_ARGS name).getD []).filter (fun k => ! hasKey args k)

/-- Call arguments outside the allowed set (`[k for k in args if k not in allowed]`). -/
def extraArgs (name : String) (args : Fields) : List String :=
  (dictKeys args).filter (fun k => ! ((TOOL_ARG_NAMES name).getD []).contains k)

/-- Embeds `ActionController.execute`: schema gate, dispatch with only
`TypeError` caught, observation recording.  The `Except` error carries
an exception escaping `execute` (e.g. the `ValueError` of an unknown
tool name, which the `except TypeError` clause does not catch). -/
def ActionController.execute (tools : RepoTools) (name : String) (args : Fields) (h : History) :
    Except PyErr (History × Observation) :=
  let gateFail : Option (List String × List String) :=
    match TOOL_ARG_NAMES name with
    | some _ =>
        let missing := missingArgs name args
        let extra := extraArgs name args
        if !missing.isEmpty || !extra.isEmpty then some (missing, extra) else none
    | none => none
  match gateFail with
  | some (missing, extra) =>
      .ok (recordResult h name ⟨false, invalidArgsMsg missing extra,
        [("tool", .jstr name), ("missing", .jlist (missing.map .jstr)),
         ("extra", .jlist (extra.map .jstr))]⟩)
  | none =>
      let dispatched : Except PyErr (History × ToolResult) :=
        if name = "list_files" then (tools.list_files args).map (fun r => (h, r))
        else if name = "read_file" then (tools.read_file args).map (fun r => (h, r))
        else if name = "write_file" then
          match tools.write_file args with
          | .error e => .error e
          | .ok res =>
              -- record file touched (note appended whenever rel_path is a string)
              let h' := match pyGet args "rel_path" with
                | .jstr rel => h.append_driver_note ("touched " ++ rel)
                | _ => h
              .ok (h', res)
        else if name = "grep" then (tools.grep args).map (fun r => (h, r))
        else if name = "run_tests" then
          .ok (h, ⟨false, "run_tests is driver-only", []⟩)
        else .error (.valueError ("Unknown tool: " ++ name))
      match dispatched with
      | .ok (h', res) => .ok (recordResult h' name res)
      | .error (.typeError m) =>
          .ok (recordResult h name ⟨false, "Tool call failed: " ++ m,
            [("tool", .jstr name), ("error", .jstr m)]⟩)
      | .error e => .error e

/-! ### agent.py and reflection_controller.py -/

inductive TestPolicy where
  | onWrite
  | onFinal
  | never
deriving DecidableEq

structure AgentConfig where
  max_iters : Nat
  max_history : Nat
  loop_tripwire : Nat
  test_policy : TestPolicy

/-- A parsed reflection (`Reflection` in `reflection.py`). -/
structure Reflection where
  notes : List String
  next_focus : Option String
  risks : List String

/-- Outcome of one `llm.reflect` call: a parsed reflection, a
`ReflectionParseError`, or any other exception (both caught). -/
inductive ReflectOutcome where
  | ok (r : Reflection)
  | parseFailed (msg : String)
  | exc (msg : String)

/-- The LLM adapter, embedded as an oracle over turn indices.  Adapters
must return typed actions; the fatal protocol-violation branch of the
driver cannot fire in this typed embedding.  `_last_raw` is modeled as
absent, so the audited `llm_action` event stores the typed dict. -/
structure LLM where
  next_action : Nat → Action
  trailing : Nat → Option String
  hasReflect : Bool
  reflect : Nat → ReflectOutcome

/-- Mutable per-run driver state: the history, the per-run
`tests_run_for_final` flag, and the number of test-tool invocations so
far (the latter counts calls of `tools.run_tests`). -/
structure RunState where
  history : History
  testsRunForFinal : Bool
  testsInvoked : Nat

/-- Embeds the `_run_and_record_tests` closure of `RepoAgent.run`. -/
def runAndRecordTests (tools : RepoTools) (st : RunState) : ToolResult × RunState :=
  let res := tools.run_tests st.testsInvoked
  let obs := Observation.from_tool_result res
  (res, ⟨st.history.append_observation "driver.run_tests" obs, st.testsRunForFinal,
    st.testsInvoked + 1⟩)

/-- JSON test-result summary attached to terminal payloads. -/
def testResultJson (tr : TestResult) : JVal :=
  let out := pyStrip tr.output
  let reason :=
    if tr.ok then "All tests passed."
    else if out ≠ "" then (out.splitOn "\n").headD ""
    else "Tests failed."
  .jobj [("ok", .jbool tr.ok), ("summary", .jstr reason), ("output_snippet", .jstr (pyTake out 500))]

/-- Embeds `d[k] = v` on a dict. -/
def setKey (d : Fields) (k : String) (v : JVal) : Fields :=
  if hasKey d k then d.map (fun p => if p.1 == k then (k, v) else p)
  else d ++ [(k, v)]

/-- How a run ends: a returned payload, or an uncaught exception. -/
inductive RunOutcome where
  | finished (payload : JVal)
  | crashed (err : PyErr)

/-- Embeds `ReflectionController.should_reflect` with the configuration
fixed by `RepoAgent.run` (`enable=True`, `reflect_on_success=False`). -/
def should_reflect (loopTriggered : Bool) (obs : Observation) (testRes : Option ToolResult) : Bool :=
  loopTriggered || obs.ok == false
    || (match testRes with | some r => r.ok == false | none => false)

/-- Embeds `ReflectionController.run_reflection` (configuration fixed by
`RepoAgent.run`: `max_reflections=5`, `reflection_dedup_window=5`).  The
`summarize_history` call at its top sits outside the try block, so an
exception there escapes the controller. -/
def run_reflection (llm : LLM) (st : RunState) (t : Nat) : Except PyErr RunState :=
  if ¬ llm.hasReflect then
    .ok { st with history := (st.history.append_driver_note
      "Reflection skipped: LLM adapter does not implement reflect().") }
  else
    match summarize_history st.history with
    | .error e => .error e
    | .ok _refSummary =>
        match llm.reflect t with
        | .parseFailed m =>
            .ok { st with history := st.history.append_driver_note ("Reflection parse failed: " ++ m) }
        | .exc m =>
            .ok { st with history := st.history.append_driver_note ("Reflection failed: " ++ m) }
        | .ok r =>
            .ok { st with history := (st.history.append_reflection ⟨r.notes, r.next_focus, r.risks⟩
              (some 5) (some 5)) }

/-- Terminal payload shape of the Final branch of `RepoAgent.run`:
starting from `parsed_action.to_dict()`, synthesize a change list from
touched files when the model supplied none, and attach the last test
result when one exists. -/
def assembleFinalObj (parsedAction : Action) (summary : RunSummary) : JVal :=
  let finalObj := match parsedAction.to_dict with | .jobj fs => fs | _ => []
  let finalObj :=
    if !pyTruthy (pyGet finalObj "changes") && !summary.files_touched.isEmpty then
      setKey finalObj "changes" (.jlist (summary.files_touched.map fun p =>
        .jobj [("path", .jstr p), ("description", .jstr "Edited file")]))
    else finalObj
  let finalObj :=
    match summary.last_test with
    | some tr => setKey finalObj "test_result" (testResultJson tr)
    | none => finalObj
  .jobj finalObj

/-- Loop-tripwire stage of a turn: inject the driver note when the
detector fired. -/
def noteLoop (st : RunState) (loopTriggered : Bool) : RunState :=
  if loopTriggered then
    { st with history := (st.history.append_driver_note
      "Loop detected: change approach, inspect different evidence, then replan.") }
  else st

/-- Audit stage of a turn: record the typed action, then a driver note
when the adapter reported trailing/unconsumed JSON. -/
def recordAction (st : RunState) (action : Action) (trailing : Option String) : RunState :=
  let st := { st with history := st.history.append_llm_action action.to_dict }
  match trailing with
  | some s =>
      if s ≠ "" then
        { st with history := (st.history.append_driver_note
          "Model returned extra/trailing JSON; only the first object was used.") }
      else st
  | none => st

/-- Post-dispatch test stage of a turn: run tests when
`test_policy == on_write`, the tool was `write_file` and a test command
exists. -/
def onWriteTests (cfg : AgentConfig) (tools : RepoTools) (test_cmd : List String)
    (name : String) (st : RunState) : Option ToolResult × RunState :=
  if cfg.test_policy = .onWrite ∧ name = "write_file" ∧ test_cmd ≠ [] then
    (some (runAndRecordTests tools st).1, (runAndRecordTests tools st).2)
  else (none, st)

/-- Final branch of a turn: the guarded once-per-run test run, the
evidence gate substitution, then the terminal payload — or the crash of
the `summarize_history` call that precedes payload assembly.  All state
mutation happens before the payload is computed, so the returned state
is the same in both outcomes. -/
def finalBranch (cfg : AgentConfig) (tools : RepoTools) (test_cmd : List String)
    (st : RunState) (summary0 : String) (changes0 : List Change) (thought0 : Option String) :
    RunState × RunOutcome :=
  let st :=
    if cfg.test_policy = .onFinal ∧ test_cmd ≠ [] ∧ ¬ st.testsRunForFinal then
      { (runAndRecordTests tools st).2 with testsRunForFinal := true }
    else st
  -- HARD GATE: no final before evidence
  let parsedAction : Action :=
    if ¬ st.history.has_any_observation then
      .toolCall "list_files" [("rel_dir", .jstr "."), ("max_files", .jnum 200)] none
    else .final summary0 changes0 thought0
  (st, match summarize_history st.history with
    | .error e => .crashed e
    | .ok summary => .finished (assembleFinalObj parsedAction summary))

/-- Post-loop exhaustion path of `RepoAgent.run`: the stop payload, an
optional `on_final` test run, and the last test summary. -/
def finishRun (cfg : AgentConfig) (tools : RepoTools) (test_cmd : List String)
    (st : RunState) : RunState × RunOutcome :=
  let st :=
    if cfg.test_policy = .onFinal ∧ test_cmd ≠ [] ∧ ¬ st.testsRunForFinal then
      { (runAndRecordTests tools st).2 with testsRunForFinal := true }
    else st
  (st, match summarize_history st.history with
    | .error e => .crashed e
    | .ok summaryState =>
        let stop : Fields := [("type", .jstr "final"),
          ("summary", .jstr "Stopped: max iters reached."), ("changes", .jlist [])]
        let stop :=
          match summaryState.last_test with
          | some tr => setKey stop "test_result" (testResultJson tr)
          | none => stop
        .finished (.jobj stop))

/-- One-turn-at-a-time embedding of the driver loop of `RepoAgent.run`
(`fuel` counts the remaining iterations of `range(max_iters)`, `t` the
current turn index).  Prompt construction and trace logging have no
effect on driver state and are omitted. -/
def runLoop (cfg : AgentConfig) (llm : LLM) (tools : RepoTools) (test_cmd : List String) :
    Nat → Nat → RunState → RunState × RunOutcome
  | 0, _, st => finishRun cfg tools test_cmd st
  | fuel + 1, t, st =>
    -- loop tripwire: inject a driver note and flag the turn
    let loopTriggered := st.history.detect_loop cfg.loop_tripwire
    let st := noteLoop st loopTriggered
    -- summary for the prompt (line 130 of agent.py)
    match summarize_history st.history with
    | .error e => (st, .crashed e)
    | .ok _summary =>
      let action := llm.next_action t
      let st := recordAction st action (llm.trailing t)
      match action with
      | .final summary0 changes0 thought0 =>
          finalBranch cfg tools test_cmd st summary0 changes0 thought0
      | .toolCall name args _thought =>
          let st := { st with history := st.history.append_tool_call name args }
          match ActionController.execute tools name args st.history with
          | .error e => (st, .crashed e)
          | .ok (h', obs) =>
              let st := { st with history := h' }
              let tr := onWriteTests cfg tools test_cmd name st
              if should_reflect loopTriggered obs tr.1 then
                match run_reflection llm tr.2 t with
                | .error e => (tr.2, .crashed e)
                | .ok st' => runLoop cfg llm tools test_cmd fuel (t + 1) st'
              else runLoop cfg llm tools test_cmd fuel (t + 1) tr.2

/-- Embeds `RepoAgent.run`: fresh history and per-run flags, then the
driver loop over `max_iters` turns. -/
def RepoAgent.run (cfg : AgentConfig) (llm : LLM) (tools : RepoTools)
    (test_cmd : List String) : RunState × RunOutcome :=
  runLoop cfg llm tools test_cmd cfg.max_iters 0 ⟨History.empty, false, 0⟩

/-! ## Helper lemmas -/

theorem firstSeen_cons (x : String) (xs : List String) :
    firstSeen (x :: xs) = x :: firstSeen (xs.filter (fun y => y ≠ x)) := by
  simp [firstSeen]

theorem firstSeen_eq_nil_iff (l : List String) : firstSeen l = [] ↔ l = [] := by
  cases l <;> simp [firstSeen]

theorem firstSeen_length_one_iff (l : List String) (hl : l ≠ []) :
    (firstSeen l).length = 1 ↔ ∀ x ∈ l, ∀ y ∈ l, x = y := by
  cases l with
  | nil => exact absurd rfl hl
  | cons a as =>
    rw [firstSeen_cons]
    simp only [List.length_cons, Nat.add_left_eq_self, List.length_eq_zero,
      firstSeen_eq_nil_iff, List.filter_eq_nil_iff]
    constructor
    · intro hall x hx y hy
      have hx' : x = a := by
        rcases List.mem_cons.mp hx with rfl | hx'
        · rfl
        · by_contra hne
          exact (hall x hx') (by simpa using hne)
      have hy' : y = a := by
        rcases List.mem_cons.mp hy with rfl | hy'
        · rfl
        · by_contra hne
          exact (hall y hy') (by simpa using hne)
      rw [hx', hy']
    · intro hall y hy
      have : y = a := hall y (List.mem_cons_of_mem a hy) a (List.mem_cons_self a as)
      simpa using this

/-! ## Reflection dedup and cap: spec-side notions and lemmas -/

/-- Every item of the incoming reflection is dropped by the dedup when
checked against the seen set `S`: notes and risks whose normal form is
empty or already in `S`, and a next_focus that is falsy, normalizes to
the empty string, or is already in `S`. -/
def allDuplicateB (ev : ReflectionEvent) (S : List String) : Bool :=
  ev.notes.all (fun n => pyNorm n == "" || S.contains (pyNorm n)) &&
  (ev.risks.all (fun r => pyNorm r == "" || S.contains (pyNorm r)) &&
   (match ev.next_focus with
    | some nf => nf == "" || pyNorm nf == "" || S.contains (pyNorm nf)
    | none => true))

/-- The event a non-no-op `append_reflection` appends: notes, then
risks, then next_focus deduplicated in that order against the seen set
grown left to right, the full original note list restored when no note
survives. -/
def survivorEvent (ev : ReflectionEvent) (S : List String) : ReflectionEvent :=
  let np := dedupPass S ev.notes
  let rp := dedupPass np.2 ev.risks
  ⟨if np.1.isEmpty then ev.notes else np.1, nextFocusPass rp.2 ev.next_focus, rp.1⟩

theorem dedupPass_isEmpty_eq (S items : List String) :
    (dedupPass S items).1.isEmpty
      = items.all (fun n => pyNorm n == "" || S.contains (pyNorm n)) := by
  induction items generalizing S with
  | nil => simp [dedupPass]
  | cons n rest ih =>
      by_cases hx : pyNorm n = "" <;> by_cases hb : pyNorm n ∈ S <;>
        simp [dedupPass, hx, hb, ih]

theorem dedupPass_nil_seen (S items : List String)
    (h : (dedupPass S items).1.isEmpty = true) : (dedupPass S items).2 = S := by
  induction items generalizing S with
  | nil => simp [dedupPass]
  | cons n rest ih =>
      by_cases hx : pyNorm n = ""
      · rw [show dedupPass S (n :: rest) = dedupPass S rest by simp [dedupPass, hx]] at h ⊢
        exact ih S h
      · by_cases hb : pyNorm n ∈ S
        · rw [show dedupPass S (n :: rest) = dedupPass S rest by
            simp [dedupPass, hx, hb]] at h ⊢
          exact ih S h
        · rw [show dedupPass S (n :: rest)
              = (n :: (dedupPass (pyNorm n :: S) rest).1,
                 (dedupPass (pyNorm n :: S) rest).2) by
            simp [dedupPass, hx, hb]] at h
          simp at h

theorem nextFocusPass_isNone_eq (seen : List String) (nf? : Option String) :
    (nextFocusPass seen nf?).isNone =
      (match nf? with
       | some nf => nf == "" || pyNorm nf == "" || seen.contains (pyNorm nf)
       | none => true) := by
  cases nf? with
  | none => rfl
  | some nf =>
      by_cases h0 : nf = ""
      · simp [nextFocusPass, h0]
      · by_cases hx : pyNorm nf = "" <;> by_cases hb : pyNorm nf ∈ seen <;>
          simp [nextFocusPass, h0, hx, hb]

/-- The no-op test of `append_reflection` coincides with
`allDuplicateB` against the window seen set. -/
theorem append_noop_eq (S : List String) (ev : ReflectionEvent) :
    ((dedupPass S ev.notes).1.isEmpty &&
      (nextFocusPass (dedupPass (dedupPass S ev.notes).2 ev.risks).2 ev.next_focus).isNone &&
      (dedupPass (dedupPass S ev.notes).2 ev.risks).1.isEmpty) = allDuplicateB ev S := by
  cases ha : (dedupPass S ev.notes).1.isEmpty with
  | false =>
      have hA : ev.notes.all (fun n => pyNorm n == "" || S.contains (pyNorm n)) = false := by
        rw [← dedupPass_isEmpty_eq, ha]
      simp only [allDuplicateB, hA, Bool.false_and]

  | true =>
      have hA : ev.notes.all (fun n => pyNorm n == "" || S.contains (pyNorm n)) = true := by
        rw [← dedupPass_isEmpty_eq, ha]
      have hseen := dedupPass_nil_seen S ev.notes ha
      rw [hseen]
      cases hr : (dedupPass S ev.risks).1.isEmpty with
      | false =>
          have hR : ev.risks.all (fun r => pyNorm r == "" || S.contains (pyNorm r)) = false := by
            rw [← dedupPass_isEmpty_eq, hr]
          simp only [allDuplicateB, hA, hR, Bool.true_and, Bool.false_and, Bool.and_false]
      | true =>
          have hR : ev.risks.all (fun r => pyNorm r == "" || S.contains (pyNorm r)) = true := by
            rw [← dedupPass_isEmpty_eq, hr]
          have hrseen := dedupPass_nil_seen S ev.risks hr
          rw [hrseen, nextFocusPass_isNone_eq]
          simp only [allDuplicateB, hA, hR, Bool.true_and, Bool.and_true]

/-! ## Sample collaborators used by concrete (counter)examples -/

/-- A benign tool collaborator: every tool succeeds, tests pass. -/
def sampleTools : RepoTools :=
  ⟨fun _ => .ok ⟨true, "a.py", []⟩, fun _ => .ok ⟨true, "contents", []⟩,
   fun _ => .ok ⟨true, "Wrote file", []⟩, fun _ => .ok ⟨true, "1 hit", []⟩,
   fun _ => ⟨true, "all tests passed", []⟩⟩

/-- An adapter whose model answers `Final` on every turn. -/
def finalOnlyLLM : LLM :=
  ⟨fun _ => .final "Done" [] none, fun _ => none, false, fun _ => .exc "unavailable"⟩

/-- Thought field of a raw action dict built from an optional string. -/
def mkThoughtField : Option String → Fields
  | some s => [("thought", .jstr s)]
  | none => []

/-! ## Claim theorems -/

/-- C9: for every argument dict `a`, optional string thought `t` and
model-callable tool name `n`, parsing the raw dict with the tool name in
`type` and no `name` key yields the same result as parsing the explicit
`tool_call` dict — in particular the coercion runs before validation, so
both dicts flow through the same validation of name, args and thought. -/
theorem parse_action_type_coercion_equiv (n : String) (hn : n ∈ TOOL_NAMES)
    (a : Fields) (t : Option String) :
    parse_action (.jobj ([("type", .jstr n), ("args", .jobj a)] ++ mkThoughtField t)) =
      parse_action (.jobj ([("type", .jstr "tool_call"), ("name", .jstr n), ("args", .jobj a)]
        ++ mkThoughtField t)) := by
  simp only [TOOL_NAMES, List.mem_cons, List.not_mem_nil, or_false] at hn
  rcases hn with rfl | rfl | rfl | rfl <;> cases t <;> rfl

/-- Witness for C9: the coercion equivalence evaluated on a concrete
`list_files` dict. -/
theorem parse_action_type_coercion_equiv_witness :
    "list_files" ∈ TOOL_NAMES ∧
      parse_action (.jobj ([("type", .jstr "list_files"),
          ("args", .jobj [("rel_dir", .jstr ".")])] ++ mkThoughtField none)) =
        parse_action (.jobj ([("type", .jstr "tool_call"), ("name", .jstr "list_files"),
          ("args", .jobj [("rel_dir", .jstr ".")])] ++ mkThoughtField none)) :=
  ⟨by decide, parse_action_type_coercion_equiv "list_files" (by decide)
    [("rel_dir", .jstr ".")] none⟩

/-- C10: for every non-empty summary string, a `final` dict with no
`changes` key parses successfully to a `FinalAction` whose change list
is empty — the absent key defaults to the empty list rather than being
a parse error. -/
theorem parse_final_missing_changes_defaults_empty (s : String) (hs : s ≠ "") :
    parse_action (.jobj [("type", .jstr "final"), ("summary", .jstr s)]) =
      .ok (.final s [] none) := by
  have h1 : parse_action (.jobj [("type", .jstr "final"), ("summary", .jstr s)]) =
      parseFinalFields (.jstr s) (.jlist []) .jnull := rfl
  rw [h1]
  simp [parseFinalFields, hs, parseChanges, validateThought]

/-- Witness for C10 at the summary string used by the repository tests. -/
theorem parse_final_missing_changes_defaults_empty_witness :
    parse_action (.jobj [("type", .jstr "final"), ("summary", .jstr "Done")]) =
      .ok (.final "Done" [] none) :=
  parse_final_missing_changes_defaults_empty "Done" (by decide)

/-- C3 (code bug): `summarize_history` raises `AttributeError` on every
history with at least one event, because `History` stores typed
`HistoryEvent` objects while the summary loop calls `e.get("kind")` on
each of them; the claimed pure projection is computable only for the
empty history.  Stated at the concrete failing input (a single driver
note) and for an arbitrary first event. -/
theorem summarize_history_raises_on_any_event :
    summarize_history ⟨[.driverNote "loop detected"]⟩ =
        .error (.attributeError "DriverNoteEvent object has no attribute get")
      ∧ ∀ (e : HistoryEvent) (rest : List HistoryEvent),
          summarize_history ⟨e :: rest⟩ =
            .error (.attributeError (eventClassName e ++ " object has no attribute get")) :=
  ⟨rfl, fun _ _ => rfl⟩

/-- Counterexample to C4 as stated: a history whose only events are a
failed `write_file` observation carrying `meta.rel_path = "a.py"` and a
successful one carrying only `meta.path = "b.py"`.  The claim predicts
`touched_files = []` (no successful observation has a `rel_path`), but
the code ignores the `ok` flag and falls back to `meta.path`, returning
both paths. -/
theorem touched_files_counts_failed_write_and_path_key :
    History.touched_files ⟨[.observation "write_file" ⟨false, "denied", [("rel_path", .jstr "a.py")]⟩,
        .observation "write_file" ⟨true, "ok", [("path", .jstr "b.py")]⟩]⟩ = ["a.py", "b.py"] := rfl

theorem touchedAux_eq_firstSeen (l : List HistoryEvent) (seen : List String) :
    touchedAux l seen = firstSeen ((l.filterMap writePathOf).filter (fun x => ! seen.contains x)) := by
  induction l generalizing seen with
  | nil => simp [touchedAux, firstSeen]
  | cons e rest ih =>
    cases hw : writePathOf e with
    | none =>
        rw [show touchedAux (e :: rest) seen = touchedAux rest seen by simp [touchedAux, hw]]
        rw [show (e :: rest).filterMap writePathOf = rest.filterMap writePathOf by
          simp [List.filterMap_cons, hw]]
        exact ih seen
    | some rel =>
        have hfm : (e :: rest).filterMap writePathOf = rel :: rest.filterMap writePathOf := by
          simp [List.filterMap_cons, hw]
        rw [hfm, List.filter_cons]
        cases hc : seen.contains rel with
        | true =>
            have hmem : rel ∈ seen := by simpa using hc
            rw [show touchedAux (e :: rest) seen = touchedAux rest seen by
              simp [touchedAux, hw, hmem]]
            simp only [Bool.not_true, Bool.false_eq_true, if_false]
            exact ih seen
        | false =>
            have hmem : rel ∉ seen := by simpa using hc
            rw [show touchedAux (e :: rest) seen = rel :: touchedAux rest (rel :: seen) by
              simp [touchedAux, hw, hmem]]
            simp only [Bool.not_false, eq_self_iff_true, if_true]
            rw [firstSeen_cons, ih]
            congr 1
            rw [List.filter_filter]
            congr 1
            apply List.filter_congr
            intro x _
            by_cases hx : x = rel
            · subst hx; simp
            · simp [List.contains_cons, hx]

/-- C4 (amended): `touched_files()` returns, in first-seen order, the
distinct string values contributed by every `write_file`
`ObservationEvent` regardless of its `ok` flag, where each observation
contributes `meta.rel_path`, falling back to `meta.path` when
`rel_path` is absent or falsy (`writePathOf`); unsuccessful writes are
not excluded. -/
theorem touched_files_eq_firstSeen (h : History) :
    h.touched_files = firstSeen (h.events.filterMap writePathOf) := by
  have := touchedAux_eq_firstSeen h.events []
  simpa [History.touched_files] using this

/-- C7: for every history and `k ≥ 1`, `detect_loop(k)` is false when
the history holds fewer than `k` tool-call events, and otherwise is
true exactly when the last `k` tool-call names are all equal, the
arguments playing no role (the events are projected to names first). -/
theorem detect_loop_name_only_spec (h : History) (k : Nat) (hk : 1 ≤ k) :
    ((toolCallNames h).length < k → h.detect_loop k = false) ∧
    (k ≤ (toolCallNames h).length →
      (h.detect_loop k = true ↔
        ∀ x ∈ (toolCallNames h).drop ((toolCallNames h).length - k),
          ∀ y ∈ (toolCallNames h).drop ((toolCallNames h).length - k), x = y)) := by
  constructor
  · intro hlt
    simp [History.detect_loop, hlt]
  · intro hge
    have hnlt : ¬ (toolCallNames h).length < k := not_lt.mpr hge
    have hk0 : k ≠ 0 := by omega
    have hlen : ((toolCallNames h).drop ((toolCallNames h).length - k)).length = k := by
      rw [List.length_drop]; omega
    have hne : (toolCallNames h).drop ((toolCallNames h).length - k) ≠ [] := by
      intro hnil
      rw [hnil] at hlen
      simp at hlen
      omega
    simp only [History.detect_loop, hnlt, if_false, hk0, beq_iff_eq]
    exact firstSeen_length_one_iff _ hne

/-- Witness for C7: a history of three identical `grep` calls trips the
loop detector at `k = 3`. -/
theorem detect_loop_name_only_spec_witness :
    (1 ≤ 3 ∧ 3 ≤ (toolCallNames ⟨[.toolCall "grep" [], .toolCall "grep" [], .toolCall "grep" []]⟩).length)
      ∧ History.detect_loop ⟨[.toolCall "grep" [], .toolCall "grep" [], .toolCall "grep" []]⟩ 3 = true :=
  ⟨⟨by decide, by decide⟩,
    ((detect_loop_name_only_spec ⟨[.toolCall "grep" [], .toolCall "grep" [], .toolCall "grep" []]⟩ 3
      (by decide)).2 (by decide)).mpr (by decide)⟩

/-- Collaborator method `execute` dispatches to for the four
model-callable tool names. -/
def collaboratorCall (tools : RepoTools) (name : String) (args : Fields) : Except PyErr ToolResult :=
  if name = "list_files" then tools.list_files args
  else if name = "read_file" then tools.read_file args
  else if name = "write_file" then tools.write_file args
  else tools.grep args

/-- Counterexample to C2 as stated: a call with an unknown tool name is
not converted into a failing observation; the `raise ValueError` sits in
a try block whose only handler catches `TypeError`, so `execute` raises
and the claim that it always returns an `ObservationEvent` fails. -/
theorem execute_unknown_tool_raises :
    ActionController.execute sampleTools "make_coffee" [] ⟨[]⟩ =
      .error (.valueError "Unknown tool: make_coffee") := rfl

/-- C2 (amended): `Controller.execute` never invokes a collaborator on a
schema-invalid call (the failing observation enumerates the missing and
extra keys), converts a model-issued `run_tests` into a failing
observation, and catches a `TypeError` raised during dispatch as a
failing `ToolResult`; but an unknown tool name raises `ValueError`, and
a non-`TypeError` exception of the collaborator propagates out of
`execute` instead of becoming an observation. -/
theorem execute_exception_boundary (tools : RepoTools) (name : String) (args : Fields) (h : History) :
    (name ∉ TOOL_NAMES → name ≠ "run_tests" →
      ActionController.execute tools name args h = .error (.valueError ("Unknown tool: " ++ name)))
    ∧ (ActionController.execute tools "run_tests" args h =
        .ok (recordResult h "run_tests" ⟨false, "run_tests is driver-only", []⟩))
    ∧ (name ∈ TOOL_NAMES →
        ((!(missingArgs name args).isEmpty || !(extraArgs name args).isEmpty) = false) →
        (∀ m, collaboratorCall tools name args = .error (.typeError m) →
          ActionController.execute tools name args h =
            .ok (recordResult h name ⟨false, "Tool call failed: " ++ m,
              [("tool", .jstr name), ("error", .jstr m)]⟩))
        ∧ (∀ e, collaboratorCall tools name args = .error e → (∀ m, e ≠ .typeError m) →
            ActionController.execute tools name args h = .error e))
    ∧ (name ∈ TOOL_NAMES →
        ((!(missingArgs name args).isEmpty || !(extraArgs name args).isEmpty) = true) →
        ActionController.execute tools name args h =
          .ok (recordResult h name ⟨false,
            invalidArgsMsg (missingArgs name args) (extraArgs name args),
            [("tool", .jstr name), ("missing", .jlist ((missingArgs name args).map .jstr)),
             ("extra", .jlist ((extraArgs name args).map .jstr))]⟩)) := by
  refine ⟨?_, ?_, ?_, ?_⟩
  · intro hmem hrt
    have hns : ¬(name = "list_files") ∧ ¬(name = "read_file") ∧ ¬(name = "write_file")
        ∧ ¬(name = "grep") := by
      simp [TOOL_NAMES] at hmem
      tauto
    obtain ⟨h1, h2, h3, h4⟩ := hns
    simp [ActionController.execute, TOOL_ARG_NAMES, h1, h2, h3, h4, hrt]
  · rfl
  · intro hmem hgate
    have hcases : name = "list_files" ∨ name = "read_file" ∨ name = "write_file"
        ∨ name = "grep" := by simpa [TOOL_NAMES] using hmem
    constructor
    · intro m hTE
      rcases hcases with rfl | rfl | rfl | rfl <;>
        · simp [collaboratorCall] at hTE
          simp [ActionController.execute, TOOL_ARG_NAMES, hgate, hTE, Except.map]
    · intro e hE hne
      rcases hcases with rfl | rfl | rfl | rfl <;>
        · simp [collaboratorCall] at hE
          cases e with
          | typeError m => exact absurd rfl (hne m)
          | valueError m =>
              simp [ActionController.execute, TOOL_ARG_NAMES, hgate, hE, Except.map]
          | attributeError m =>
              simp [ActionController.execute, TOOL_ARG_NAMES, hgate, hE, Except.map]
  · intro hmem hgate
    have hcases : name = "list_files" ∨ name = "read_file" ∨ name = "write_file"
        ∨ name = "grep" := by simpa [TOOL_NAMES] using hmem
    rcases hcases with rfl | rfl | rfl | rfl <;>
      simp [ActionController.execute, TOOL_ARG_NAMES, hgate]

/-- A collaborator whose `list_files` raises `TypeError`. -/
def typeErrTools : RepoTools :=
  ⟨fun _ => .error (.typeError "unsupported operand"), sampleTools.read_file,
   sampleTools.write_file, sampleTools.grep, sampleTools.run_tests⟩

/-- Witness for C2 (amended): a `TypeError` from the `list_files`
collaborator on a schema-valid call is surfaced as a failing
observation. -/
theorem execute_exception_boundary_witness :
    ActionController.execute typeErrTools "list_files"
        [("rel_dir", .jstr "."), ("max_files", .jnum 5)] ⟨[]⟩ =
      .ok (recordResult ⟨[]⟩ "list_files" ⟨false, "Tool call failed: unsupported operand",
        [("tool", .jstr "list_files"), ("error", .jstr "unsupported operand")]⟩) :=
  ((execute_exception_boundary typeErrTools "list_files"
      [("rel_dir", .jstr "."), ("max_files", .jnum 5)] ⟨[]⟩).2.2.1
    (by decide) (by decide)).1 "unsupported operand" rfl

/-- C1 (code bug): a driver whose very first model response is `Final`
(empty history, `test_policy` not running tests first) does not execute
any tool call.  The evidence gate does substitute the forced
`list_files` tool call, but the Final branch then crashes in
`summarize_history` (the history now holds the `LLMActionEvent`, whose
class has no `get` method) before dispatching anything — and even
absent that crash the branch returns the substituted action as the run
payload instead of executing it.  At this input the run terminates with
`AttributeError`, zero observations and zero tool invocations. -/
theorem run_first_final_executes_no_tool :
    (RepoAgent.run ⟨5, 12, 3, .never⟩ finalOnlyLLM sampleTools []).2 =
        .crashed (.attributeError "LLMActionEvent object has no attribute get")
      ∧ (RepoAgent.run ⟨5, 12, 3, .never⟩ finalOnlyLLM sampleTools []).1.history.has_any_observation
          = false
      ∧ (RepoAgent.run ⟨5, 12, 3, .never⟩ finalOnlyLLM sampleTools []).1.testsInvoked = 0 :=
  ⟨rfl, rfl, rfl⟩

/-- Counterexample to C5 as stated: incoming reflection
`notes=["x"], risks=["x", "  "]` against an empty history.  Per the
claim, neither risk occurs in the (empty) window, so the appended event
should keep `risks=["x", "  "]`; the code instead dedups the risks
against the seen set already extended by the accepted note `x` and
drops whitespace-only items, appending `risks=[]`. -/
theorem append_reflection_cross_category_dedup :
    (History.append_reflection ⟨[]⟩ ⟨["x"], none, ["x", "  "]⟩ none (some 5)).events
      = [.reflection ⟨["x"], none, []⟩] := rfl

/-- C5 (amended): with dedup window `w`, let `S` be the seen set built
from the last `w` stored reflections (all of them when `w ≤ 0`).  If
every note, risk and next_focus of the incoming event is empty after
trimming/lowercasing or already occurs in `S`, `append_reflection`
appends nothing, for every cap setting; otherwise (with no cap) exactly
one `ReflectionEvent` is appended, holding the items that survive a
single left-to-right pass over notes, then risks, then next_focus, in
which each accepted item adds its normal form to the seen set, with the
original full note list restored when no note survives. -/
theorem append_reflection_dedup_spec (h : History) (ev : ReflectionEvent) (w : Int) :
    (allDuplicateB ev (reflectionSeenSet h w) = true →
      ∀ mr, h.append_reflection ev mr (some w) = h)
  ∧ (allDuplicateB ev (reflectionSeenSet h w) = false →
      (h.append_reflection ev none (some w)).events
        = h.events ++ [.reflection (survivorEvent ev (reflectionSeenSet h w))]) := by
  constructor
  · intro hdup mr
    have hw : (match (some w : Option Int), mr with
        | none, some m => some m
        | dw, _ => dw).getD 0 = w := by cases mr <;> rfl
    simp only [History.append_reflection, hw, append_noop_eq, hdup]
    simp
  · intro hdup
    simp only [History.append_reflection, Option.getD_some, append_noop_eq, hdup]
    simp [capReflections, survivorEvent]

/-- Witness for C5: a fully duplicated reflection is a no-op even with
a cap set, and a fresh reflection is appended as its survivor event. -/
theorem append_reflection_dedup_spec_witness :
    (History.append_reflection ⟨[.reflection ⟨["done"], none, []⟩]⟩
        ⟨["Done "], none, []⟩ (some 3) (some 2)
      = ⟨[.reflection ⟨["done"], none, []⟩]⟩)
    ∧ (History.append_reflection ⟨[]⟩ ⟨["fresh"], none, []⟩ none (some 5)).events
        = [.reflection (survivorEvent ⟨["fresh"], none, []⟩ (reflectionSeenSet ⟨[]⟩ 5))] :=
  ⟨(append_reflection_dedup_spec ⟨[.reflection ⟨["done"], none, []⟩]⟩
      ⟨["Done "], none, []⟩ 2).1 (by decide) (some 3),
   (append_reflection_dedup_spec ⟨[]⟩ ⟨["fresh"], none, []⟩ 5).2 (by decide)⟩

/-! ## FIFO eviction of reflections: lemmas about the cap loop -/

/-- Removes the first `n` reflection events of a list, keeping every
other event in order: the declarative form of FIFO eviction with
consistent re-indexing. -/
def dropRefl : Nat → List HistoryEvent → List HistoryEvent
  | 0, l => l
  | _ + 1, [] => []
  | n + 1, e :: rest =>
      if e.isReflection then dropRefl n rest else e :: dropRefl (n + 1) rest

theorem reflIndicesFrom_shift (l : List HistoryEvent) (i : Nat) :
    reflIndicesFrom l i = (reflIndicesFrom l 0).map (· + i) := by
  induction l generalizing i with
  | nil => simp [reflIndicesFrom]
  | cons e rest ih =>
      by_cases hr : e.isReflection = true
      · rw [show reflIndicesFrom (e :: rest) i = i :: reflIndicesFrom rest (i + 1) by
          simp [reflIndicesFrom, hr]]
        rw [show reflIndicesFrom (e :: rest) 0 = 0 :: reflIndicesFrom rest 1 by
          simp [reflIndicesFrom, hr]]
        rw [ih (i + 1), ih 1, List.map_cons, List.map_map]
        have hfun : ((fun x => x + i) ∘ fun x => x + 1) = fun x => x + (i + 1) := by
          funext x
          simp [Function.comp]
          omega
        rw [hfun]
        congr 1
        omega
      · have hr' : e.isReflection = false := by simpa using hr
        rw [show reflIndicesFrom (e :: rest) i = reflIndicesFrom rest (i + 1) by
          simp [reflIndicesFrom, hr']]
        rw [show reflIndicesFrom (e :: rest) 0 = reflIndicesFrom rest 1 by
          simp [reflIndicesFrom, hr']]
        rw [ih (i + 1), ih 1, List.map_map]
        have hfun : ((fun x => x + i) ∘ fun x => x + 1) = fun x => x + (i + 1) := by
          funext x
          simp [Function.comp]
          omega
        rw [hfun]

theorem capLoop_cons_shift (n : Nat) (idxs : List Nat) (e : HistoryEvent)
    (evs : List HistoryEvent) :
    capLoop (e :: evs) (idxs.map (· + 1)) n = e :: capLoop evs idxs n := by
  induction n generalizing idxs evs with
  | zero => cases idxs <;> rfl
  | succ n ih =>
      cases idxs with
      | nil => rfl
      | cons i rest =>
          rw [List.map_cons]
          rw [show capLoop (e :: evs) ((i + 1) :: rest.map (· + 1)) (n + 1)
              = capLoop ((e :: evs).eraseIdx (i + 1))
                ((rest.map (· + 1)).map (fun j => if i + 1 < j then j - 1 else j)) n from rfl]
          rw [show capLoop evs (i :: rest) (n + 1)
              = capLoop (evs.eraseIdx i) (rest.map (fun j => if i < j then j - 1 else j)) n
            from rfl]
          rw [List.eraseIdx_cons_succ]
          have hmap : (rest.map (· + 1)).map (fun j => if i + 1 < j then j - 1 else j)
              = (rest.map (fun j => if i < j then j - 1 else j)).map (· + 1) := by
            rw [List.map_map, List.map_map]
            congr 1
            funext j
            simp only [Function.comp]
            by_cases hij : i < j
            · rw [if_pos (by omega), if_pos hij]
              omega
            · rw [if_neg (by omega), if_neg hij]
          rw [hmap, ih]

theorem dropRefl_no_refl (n : Nat) (l : List HistoryEvent) :
    (∀ e ∈ l, e.isReflection = false) → dropRefl n l = l := by
  induction l generalizing n with
  | nil => intro _; cases n <;> rfl
  | cons e rest ih =>
      intro hall
      cases n with
      | zero => rfl
      | succ n =>
          rw [show dropRefl (n + 1) (e :: rest) = e :: dropRefl (n + 1) rest by
            simp [dropRefl, hall e (by simp)]]
          rw [ih (n + 1) (fun x hx => hall x (by simp [hx]))]

theorem reflIndicesFrom_nil_iff (l : List HistoryEvent) :
    reflIndicesFrom l 0 = [] ↔ ∀ e ∈ l, e.isReflection = false := by
  induction l with
  | nil => simp [reflIndicesFrom]
  | cons e rest ih =>
      by_cases hr : e.isReflection = true
      · simp [reflIndicesFrom, hr]
      · have hr' : e.isReflection = false := by simpa using hr
        rw [show reflIndicesFrom (e :: rest) 0 = reflIndicesFrom rest 1 by
          simp [reflIndicesFrom, hr']]
        rw [reflIndicesFrom_shift rest 1]
        simp [ih, hr']

theorem capLoop_eq_dropRefl (evs : List HistoryEvent) (n : Nat) :
    capLoop evs (reflIndicesFrom evs 0) n = dropRefl n evs := by
  induction evs generalizing n with
  | nil => cases n <;> rfl
  | cons e rest ih =>
      by_cases hr : e.isReflection = true
      · rw [show reflIndicesFrom (e :: rest) 0 = 0 :: reflIndicesFrom rest 1 by
          simp [reflIndicesFrom, hr]]
        cases n with
        | zero => rfl
        | succ n =>
            rw [show capLoop (e :: rest) (0 :: reflIndicesFrom rest 1) (n + 1)
                = capLoop ((e :: rest).eraseIdx 0)
                  ((reflIndicesFrom rest 1).map (fun i => if 0 < i then i - 1 else i)) n
              from rfl]
            rw [show (e :: rest).eraseIdx 0 = rest from rfl]
            rw [reflIndicesFrom_shift rest 1, List.map_map]
            have hfun : ((fun i => if 0 < i then i - 1 else i) ∘ fun x => x + 1) = id := by
              funext j
              simp [Function.comp]
            rw [hfun, List.map_id, ih n]
            rw [show dropRefl (n + 1) (e :: rest) = dropRefl n rest by simp [dropRefl, hr]]
      · have hr' : e.isReflection = false := by simpa using hr
        rw [show reflIndicesFrom (e :: rest) 0 = reflIndicesFrom rest 1 by
          simp [reflIndicesFrom, hr']]
        rw [reflIndicesFrom_shift rest 1, capLoop_cons_shift, ih n]
        cases n with
        | zero => simp [dropRefl]
        | succ n =>
            rw [show dropRefl (n + 1) (e :: rest) = e :: dropRefl (n + 1) rest by
              simp [dropRefl, hr']]

theorem countReflections_dropRefl (n : Nat) (l : List HistoryEvent) :
    countReflections (dropRefl n l) = countReflections l - n := by
  induction l generalizing n with
  | nil => cases n <;> simp [dropRefl, countReflections]
  | cons e rest ih =>
      cases n with
      | zero => simp [dropRefl]
      | succ n =>
          by_cases hr : e.isReflection = true
          · rw [show dropRefl (n + 1) (e :: rest) = dropRefl n rest by simp [dropRefl, hr]]
            rw [ih n]
            rw [show countReflections (e :: rest) = countReflections rest + 1 by
              simp [countReflections, List.filter_cons, hr]]
            omega
          · have hr' : e.isReflection = false := by simpa using hr
            rw [show dropRefl (n + 1) (e :: rest) = e :: dropRefl (n + 1) rest by
              simp [dropRefl, hr']]
            rw [show countReflections (e :: dropRefl (n + 1) rest)
                = countReflections (dropRefl (n + 1) rest) by
              simp [countReflections, List.filter_cons, hr']]
            rw [ih (n + 1)]
            rw [show countReflections (e :: rest) = countReflections rest by
              simp [countReflections, List.filter_cons, hr']]

theorem reflIndicesFrom_length (l : List HistoryEvent) (i : Nat) :
    (reflIndicesFrom l i).length = countReflections l := by
  induction l generalizing i with
  | nil => simp [reflIndicesFrom, countReflections]
  | cons e rest ih =>
      by_cases hr : e.isReflection = true
      · rw [show reflIndicesFrom (e :: rest) i = i :: reflIndicesFrom rest (i + 1) by
          simp [reflIndicesFrom, hr]]
        rw [show countReflections (e :: rest) = countReflections rest + 1 by
          simp [countReflections, List.filter_cons, hr]]
        simp [ih (i + 1)]
      · have hr' : e.isReflection = false := by simpa using hr
        rw [show reflIndicesFrom (e :: rest) i = reflIndicesFrom rest (i + 1) by
          simp [reflIndicesFrom, hr']]
        rw [show countReflections (e :: rest) = countReflections rest by
          simp [countReflections, List.filter_cons, hr']]
        exact ih (i + 1)

theorem countReflections_append_refl (l : List HistoryEvent) (r : ReflectionEvent) :
    countReflections (l ++ [.reflection r]) = countReflections l + 1 := by
  simp [countReflections, List.filter_append, HistoryEvent.isReflection]

/-- Counterexample to C6 as stated: a history already holding two
reflections, `max_reflections = 1`, and an incoming reflection whose
only note already occurs in the dedup window.  The append is a no-op
(early return), so the cap is never applied and the reflection count
stays 2, exceeding `max_reflections`. -/
theorem append_reflection_noop_exceeds_cap :
    countReflections ((History.append_reflection
        ⟨[.reflection ⟨["a"], none, []⟩, .reflection ⟨["b"], none, []⟩]⟩
        ⟨["a"], none, []⟩ (some 1) (some 5)).events) = 2 := rfl

/-- C6 (amended): whenever `append_reflection` actually appends (the
incoming reflection is not fully deduplicated away) and
`max_reflections > 0`, the resulting event list equals the pre-cap list
(original events plus the survivor reflection) with its oldest
`count + 1 - max_reflections` reflection events removed in order — FIFO
eviction with consistent re-indexing — and the resulting number of
reflection events never exceeds `max_reflections`.  When the incoming
reflection is fully deduplicated away the append is an early-return
no-op and an already-exceeding count is not reduced. -/
theorem append_reflection_cap_spec (h : History) (ev : ReflectionEvent) (w m : Int)
    (hm : 0 < m) (hnd : allDuplicateB ev (reflectionSeenSet h w) = false) :
    (h.append_reflection ev (some m) (some w)).events
        = dropRefl (countReflections h.events + 1 - m.toNat)
            (h.events ++ [.reflection (survivorEvent ev (reflectionSeenSet h w))])
      ∧ countReflections (h.append_reflection ev (some m) (some w)).events ≤ m.toNat := by
  have hmain : (h.append_reflection ev (some m) (some w)).events
      = dropRefl (countReflections h.events + 1 - m.toNat)
          (h.events ++ [.reflection (survivorEvent ev (reflectionSeenSet h w))]) := by
    simp only [History.append_reflection, Option.getD_some, append_noop_eq, hnd,
      Bool.false_eq_true, if_false, capReflections, survivorEvent]
    rw [if_pos hm, capLoop_eq_dropRefl, reflIndicesFrom_length, countReflections_append_refl]
    rw [show (((countReflections h.events + 1 : Nat) : Int) - m).toNat
        = countReflections h.events + 1 - m.toNat by omega]
  refine ⟨hmain, ?_⟩
  rw [hmain, countReflections_dropRefl, countReflections_append_refl]
  omega

/-- Witness for C6 (amended) at a concrete input: appending a fresh
reflection to the empty history with cap 1. -/
theorem append_reflection_cap_spec_witness :
    ((History.append_reflection ⟨[]⟩ ⟨["a"], none, []⟩ (some 1) (some 5)).events
        = dropRefl (countReflections (History.mk []).events + 1 - (1 : Int).toNat)
            ((History.mk []).events
              ++ [.reflection (survivorEvent ⟨["a"], none, []⟩ (reflectionSeenSet ⟨[]⟩ 5))]))
      ∧ countReflections
          (History.append_reflection ⟨[]⟩ ⟨["a"], none, []⟩ (some 1) (some 5)).events
        ≤ (1 : Int).toNat :=
  append_reflection_cap_spec ⟨[]⟩ ⟨["a"], none, []⟩ 5 1 (by decide) (by decide)

/-! ## Driver-loop invariant: tests run at most once under on_final -/

/-- Per-run coupling of the `tests_run_for_final` flag with the number
of test-tool invocations: no test has run while the flag is down, and
exactly one has once it is up. -/
def TestsInv (st : RunState) : Prop :=
  (st.testsRunForFinal = false ∧ st.testsInvoked = 0)
    ∨ (st.testsRunForFinal = true ∧ st.testsInvoked = 1)

theorem run_reflection_preserves (llm : LLM) (st : RunState) (t : Nat) (st' : RunState)
    (h : run_reflection llm st t = .ok st') :
    st'.testsRunForFinal = st.testsRunForFinal ∧ st'.testsInvoked = st.testsInvoked := by
  unfold run_reflection at h
  split at h
  · cases h
    exact ⟨rfl, rfl⟩
  · split at h
    · cases h
    · split at h <;> (cases h; exact ⟨rfl, rfl⟩)

theorem noteLoop_inv (st : RunState) (b : Bool) (h : TestsInv st) :
    TestsInv (noteLoop st b) := by
  unfold noteLoop
  split
  · exact h
  · exact h

theorem recordAction_inv (st : RunState) (a : Action) (tr : Option String)
    (h : TestsInv st) : TestsInv (recordAction st a tr) := by
  simp only [recordAction]
  cases tr with
  | none => exact h
  | some s =>
      dsimp only
      by_cases hs : s ≠ ""
      · rw [if_pos hs]
        exact h
      · rw [if_neg hs]
        exact h

theorem guardedFinalTests_inv (tools : RepoTools) (st : RunState) (P : Prop) [Decidable P]
    (hP : P → ¬ st.testsRunForFinal = true) (hInv : TestsInv st) :
    TestsInv (if P then { (runAndRecordTests tools st).2 with testsRunForFinal := true }
      else st) := by
  split
  · next hp =>
      have hi : st.testsInvoked = 0 := by
        rcases hInv with ⟨-, hi⟩ | ⟨hf, -⟩
        · exact hi
        · exact absurd hf (hP hp)
      exact Or.inr ⟨rfl, by simp [runAndRecordTests, hi]⟩
  · exact hInv

theorem finalBranch_inv (cfg : AgentConfig) (tools : RepoTools) (cmd : List String)
    (st : RunState) (s0 : String) (c0 : List Change) (th0 : Option String)
    (hInv : TestsInv st) : TestsInv (finalBranch cfg tools cmd st s0 c0 th0).1 := by
  have hfst : (finalBranch cfg tools cmd st s0 c0 th0).1
      = (if cfg.test_policy = .onFinal ∧ cmd ≠ [] ∧ ¬ st.testsRunForFinal then
          { (runAndRecordTests tools st).2 with testsRunForFinal := true } else st) := rfl
  rw [hfst]
  exact guardedFinalTests_inv tools st _ (fun hp => by simpa using hp.2.2) hInv

theorem finishRun_inv (cfg : AgentConfig) (tools : RepoTools) (cmd : List String)
    (st : RunState) (hInv : TestsInv st) : TestsInv (finishRun cfg tools cmd st).1 := by
  have hfst : (finishRun cfg tools cmd st).1
      = (if cfg.test_policy = .onFinal ∧ cmd ≠ [] ∧ ¬ st.testsRunForFinal then
          { (runAndRecordTests tools st).2 with testsRunForFinal := true } else st) := rfl
  rw [hfst]
  exact guardedFinalTests_inv tools st _ (fun hp => by simpa using hp.2.2) hInv

theorem onWriteTests_on_final (cfg : AgentConfig) (hp : cfg.test_policy = .onFinal)
    (tools : RepoTools) (cmd : List String) (name : String) (st : RunState) :
    onWriteTests cfg tools cmd name st = (none, st) := by
  unfold onWriteTests
  rw [if_neg]
  rintro ⟨h1, -⟩
  rw [hp] at h1
  simp at h1

theorem runLoop_tests_inv (cfg : AgentConfig) (llm : LLM) (tools : RepoTools)
    (test_cmd : List String) (hp : cfg.test_policy = .onFinal) :
    ∀ fuel t st, TestsInv st → TestsInv (runLoop cfg llm tools test_cmd fuel t st).1 := by
  intro fuel
  induction fuel with
  | zero =>
      intro t st hInv
      exact finishRun_inv cfg tools test_cmd st hInv
  | succ fuel ih =>
      intro t st hInv
      have hInv1 := noteLoop_inv st (st.history.detect_loop cfg.loop_tripwire) hInv
      simp only [runLoop]
      split
      · exact hInv1
      · split
        · -- Final branch
          exact finalBranch_inv cfg tools test_cmd _ _ _ _
            (recordAction_inv _ _ _ hInv1)
        · -- ToolCall branch
          have hInv2 : TestsInv (recordAction
              (noteLoop st (st.history.detect_loop cfg.loop_tripwire))
              (llm.next_action t) (llm.trailing t)) :=
            recordAction_inv _ _ _ hInv1
          split
          · exact hInv2
          · rw [onWriteTests_on_final cfg hp tools test_cmd]
            split
            · split
              · exact hInv2
              · next st' hrr =>
                  refine ih (t + 1) st' ?_
                  have hpres := run_reflection_preserves llm _ t st' hrr
                  rcases hInv2 with ⟨hf, hi⟩ | ⟨hf, hi⟩
                  · exact Or.inl ⟨by rw [hpres.1]; exact hf, by rw [hpres.2]; exact hi⟩
                  · exact Or.inr ⟨by rw [hpres.1]; exact hf, by rw [hpres.2]; exact hi⟩
            · exact ih (t + 1) _ hInv2

/-- C8: under `test_policy = on_final` with a non-empty test command, a
single run invokes the test tool at most once, whatever the model and
tool collaborators do: the only call sites of the test runner outside
the `on_write` policy are guarded by the per-run `tests_run_for_final`
flag, which is set with the first invocation and never reset. -/
theorem on_final_tests_at_most_once (cfg : AgentConfig) (llm : LLM) (tools : RepoTools)
    (test_cmd : List String) (hp : cfg.test_policy = .onFinal) (_hcmd : test_cmd ≠ []) :
    (RepoAgent.run cfg llm tools test_cmd).1.testsInvoked ≤ 1 := by
  have h := runLoop_tests_inv cfg llm tools test_cmd hp cfg.max_iters 0
    ⟨History.empty, false, 0⟩ (Or.inl ⟨rfl, rfl⟩)
  unfold RepoAgent.run
  rcases h with ⟨-, hi⟩ | ⟨-, hi⟩ <;> omega

/-- Witness for C8: a concrete `on_final` run (the model immediately
declares `Final`) invokes the test tool at most once. -/
theorem on_final_tests_at_most_once_witness :
    (RepoAgent.run ⟨3, 12, 3, .onFinal⟩ finalOnlyLLM sampleTools ["pytest"]).1.testsInvoked ≤ 1 :=
  on_final_tests_at_most_once ⟨3, 12, 3, .onFinal⟩ finalOnlyLLM sampleTools ["pytest"]
    rfl (by decide)

end LlmRepoAgent
